import Mathlib

/-!
# Verification of the algorithmic core of the `python-desenvolvedor-` scripts

Shallow embedding of the algorithmic functions of `logica_programacao.py` and
`resolucao_problemas.py`, together with proofs of the specified properties.

Conventions of the embedding:
* Python `int` is `Int`; Python lists are `List`; Python sets are `Finset`;
  Python strings are `String` (compared and folded per `Char`).
* Python `//` and `%` on integers are floor division / sign-of-divisor
  modulus; for the positive divisors used here these agree with Lean's
  `Int` division `/` and `%` (Euclidean), which we use.
* Python dictionaries that only serve as insertion-ordered maps are
  embedded as association lists.
* List indexing `lista[i]` is embedded as `List.getD`; every access in the
  embedded code happens at an in-range index, which the theorems establish.
-/

namespace PyDev

/-- Python slice `l[:i]` (negative `i` counts from the end, clamped). -/
def pySliceTo {α : Type} (l : List α) (i : Int) : List α :=
  l.take (if 0 ≤ i then i.toNat else ((l.length : Int) + i).toNat)

/-- Python slice `l[i:]` (negative `i` counts from the end, clamped). -/
def pySliceFrom {α : Type} (l : List α) (i : Int) : List α :=
  l.drop (if 0 ≤ i then i.toNat else ((l.length : Int) + i).toNat)

/-! ## `logica_programacao.py` -/

/-- The `while esquerda <= direita` loop of `busca_binaria`. -/
def buscaLoop (lista : List Int) (alvo : Int) (esquerda direita : Int) : Int :=
  if h : esquerda ≤ direita then
    if lista.getD ((esquerda + direita) / 2).toNat 0 = alvo then
      (esquerda + direita) / 2
    else if lista.getD ((esquerda + direita) / 2).toNat 0 < alvo then
      buscaLoop lista alvo ((esquerda + direita) / 2 + 1) direita
    else
      buscaLoop lista alvo esquerda ((esquerda + direita) / 2 - 1)
  else
    -1
termination_by (direita + 1 - esquerda).toNat
decreasing_by
  · omega
  · omega

/-- `busca_binaria(lista, alvo)`: binary search over a sorted list,
returning an index or `-1`. -/
def busca_binaria (lista : List Int) (alvo : Int) : Int :=
  buscaLoop lista alvo 0 ((lista.length : Int) - 1)

/-- `mesclar(esquerda, direita)`: the merge loop of `merge_sort`, taking the
lesser-or-equal front element (left side first on ties), then extending with
the leftover tail. -/
def mesclar : List Int → List Int → List Int
  | [], direita => direita
  | esquerda@(_ :: _), [] => esquerda
  | x :: xs, y :: ys =>
    if x ≤ y then x :: mesclar xs (y :: ys) else y :: mesclar (x :: xs) ys

/-- `merge_sort(lista)`: split at `len(lista) // 2`, sort both halves,
merge. -/
def merge_sort (lista : List Int) : List Int :=
  if h : lista.length ≤ 1 then
    lista
  else
    mesclar (merge_sort (lista.take (lista.length / 2)))
      (merge_sort (lista.drop (lista.length / 2)))
termination_by lista.length
decreasing_by
  · simp only [List.length_take]
    omega
  · simp only [List.length_drop]
    omega

/-- `fibonacci(n, memo)`: memoized Fibonacci.  The Python `memo` dictionary,
mutated through the two recursive calls, is threaded explicitly: the result
pairs the returned value with the memo as it stands after the call.
Insertion is modelled by a `cons`, which shadows like a dict assignment. -/
def fibonacci (n : Int) (memo : List (Int × Int)) : Int × List (Int × Int) :=
  match memo.lookup n with
  | some v => (v, memo)
  | none =>
    if h : n ≤ 1 then
      (n, memo)
    else
      let r1 := fibonacci (n - 1) memo
      let r2 := fibonacci (n - 2) r1.2
      (r1.1 + r2.1, (n, r1.1 + r2.1) :: r2.2)
termination_by n.toNat
decreasing_by
  · omega
  · omega

/-- Python `texto.lower()`, per character (ASCII case folding). -/
def pyLower (texto : String) : List Char :=
  texto.data.map Char.toLower

/-- Helper for `texto.split()`: accumulates the current word (reversed). -/
def pySplitAux : List Char → List Char → List (List Char)
  | [], acc => if acc.isEmpty then [] else [acc.reverse]
  | c :: cs, acc =>
    if c.isWhitespace then
      if acc.isEmpty then pySplitAux cs [] else acc.reverse :: pySplitAux cs []
    else
      pySplitAux cs (c :: acc)

/-- Python `s.split()` with no argument: split on whitespace runs,
dropping empty pieces. -/
def pySplit (s : List Char) : List (List Char) :=
  pySplitAux s []

/-- One step of the counting loop of `contar_frequencia`:
`frequencia[palavra] = frequencia.get(palavra, 0) + 1` on an
insertion-ordered association list. -/
def bumpPalavra (frequencia : List (List Char × Nat)) (palavra : List Char) :
    List (List Char × Nat) :=
  match frequencia with
  | [] => [(palavra, 1)]
  | (k, v) :: rest =>
    if k = palavra then (k, v + 1) :: rest else (k, v) :: bumpPalavra rest palavra

/-- `contar_frequencia(texto)`: word frequencies of the lower-cased,
whitespace-split text, in first-encounter order. -/
def contar_frequencia (texto : String) : List (List Char × Nat) :=
  (pySplit (pyLower texto)).foldl bumpPalavra []

/-- `top_n_palavras(texto, n)`: Python
`sorted(frequencia.items(), key=lambda x: x[1], reverse=True)[:n]`.
`sorted` with `reverse=True` is a stable sort by descending count, embedded
with the stable `List.mergeSort` and the comparator `y.2 ≤ x.2`; `[:n]` is
the Python slice. -/
def top_n_palavras (texto : String) (n : Int) : List (List Char × Nat) :=
  pySliceTo ((contar_frequencia texto).mergeSort fun x y => decide (y.2 ≤ x.2)) n

/-- Result dictionary of `operacoes_conjuntos` (fixed string keys become
fields). -/
structure OperacoesConjuntos where
  uniao : Finset Int
  interseccao : Finset Int
  diferenca : Finset Int
  diferenca_simetrica : Finset Int

/-- `operacoes_conjuntos(conjunto_a, conjunto_b)`: the four set operations. -/
def operacoes_conjuntos (conjunto_a conjunto_b : Finset Int) : OperacoesConjuntos :=
  { uniao := conjunto_a ∪ conjunto_b
    interseccao := conjunto_a ∩ conjunto_b
    diferenca := conjunto_a \ conjunto_b
    diferenca_simetrica := symmDiff conjunto_a conjunto_b }

/-! ## `resolucao_problemas.py` -/

/-- The fixed special-character set of `validar_senha_forte`
(`!@#$%^&*(),.?":{}|<>`; the braces and the double quote are spelled via
`Char.ofNat`). -/
def caracteresEspeciais : List Char :=
  ['!', '@', '#', '$', '%', '^', '&', '*', '(', ')', ',', '.', '?',
    Char.ofNat 34, ':', Char.ofNat 123, Char.ofNat 125, '|', '<', '>']

/-- Violation message for the minimum-length check. -/
def msgMin8 : String := "❌ Mínimo 8 caracteres"

/-- Violation message for the missing-uppercase check. -/
def msgMaiuscula : String := "❌ Falta letra maiúscula"

/-- Violation message for the missing-lowercase check. -/
def msgMinuscula : String := "❌ Falta letra minúscula"

/-- Violation message for the missing-digit check. -/
def msgNumero : String := "❌ Falta número"

/-- Violation message for the missing-special-character check. -/
def msgEspecial : String := "❌ Falta caractere especial"

/-- `validar_senha_forte(senha)`: the five checks run in order, each failed
check appending its message; returns `(len(problemas) == 0, problemas)`.
`re.search(r'[A-Z]', ...)` and the other character classes are ASCII range
tests on the characters of the string. -/
def validar_senha_forte (senha : String) : Bool × List String :=
  let problemas : List String :=
    (if senha.data.length < 8 then [msgMin8] else []) ++
    (if senha.data.any fun c => decide ('A' ≤ c) && decide (c ≤ 'Z') then []
      else [msgMaiuscula]) ++
    (if senha.data.any fun c => decide ('a' ≤ c) && decide (c ≤ 'z') then []
      else [msgMinuscula]) ++
    (if senha.data.any fun c => decide ('0' ≤ c) && decide (c ≤ '9') then []
      else [msgNumero]) ++
    (if senha.data.any fun c => caracteresEspeciais.contains c then []
      else [msgEspecial])
  (problemas.length == 0, problemas)

/-- `encontrar_divisores(numero)`: `[i for i in range(1, numero) if numero % i == 0]`. -/
def encontrar_divisores (numero : Int) : List Int :=
  (((List.range (numero - 1).toNat).map fun i => (i : Int) + 1).filter
    fun i => numero % i == 0)

/-- `eh_numero_perfeito(numero)`: `numero == sum(encontrar_divisores(numero))`. -/
def eh_numero_perfeito (numero : Int) : Bool :=
  numero == (encontrar_divisores numero).sum

/-- `sao_numeros_amigos(a, b)`: the proper-divisor sums cross-match. -/
def sao_numeros_amigos (a b : Int) : Bool :=
  ((encontrar_divisores a).sum == b) && ((encontrar_divisores b).sum == a)

/-- One row step of the LCS table of `mdc_sequencias`:
given row `i` of the table (`prev`), computes row `i + 1` entry by entry
(`dp[i+1][j+1] = dp[i][j] + 1` on a character match, else
`max(dp[i][j+1], dp[i+1][j])`). -/
def dpRowNext (a : Char) (seq2 : List Char) (prev : Nat → Nat) : Nat → Nat
  | 0 => 0
  | j + 1 =>
    if a = seq2.getD j ' ' then prev j + 1
    else max (prev (j + 1)) (dpRowNext a seq2 prev j)

/-- The dynamic-programming table of `mdc_sequencias`:
`dpLCS seq1 seq2 i j` is the Python `dp[i][j]`, built row by row exactly as
the double `for` loop fills it. -/
def dpLCS (seq1 seq2 : List Char) : Nat → Nat → Nat
  | 0 => fun _ => 0
  | i + 1 => dpRowNext (seq1.getD i ' ') seq2 (dpLCS seq1 seq2 i)

/-- One row of the backtracking walk of `mdc_sequencias`, with `prev` the
walk results for first index `i`: from cell `(i+1, j+1)` the walk takes the
matching character (appending it after the subsequence built from `(i, j)`),
else moves to `(i, j+1)` when `dp[i][j+1] > dp[i+1][j]`, else to `(i+1, j)`.
The Python loop collects the characters back to front and reverses at the
end; the embedding builds the reversed (final) string directly. -/
def lcsBackNext (seq1 seq2 : List Char) (i : Nat) (prev : Nat → List Char) :
    Nat → List Char
  | 0 => []
  | j + 1 =>
    if seq1.getD i ' ' = seq2.getD j ' ' then
      prev j ++ [seq1.getD i ' ']
    else if dpLCS seq1 seq2 i (j + 1) > dpLCS seq1 seq2 (i + 1) j then
      prev (j + 1)
    else
      lcsBackNext seq1 seq2 i prev j

/-- The backtracking walk of `mdc_sequencias` from cell `(i, j)`. -/
def lcsBack (seq1 seq2 : List Char) : Nat → Nat → List Char
  | 0 => fun _ => []
  | i + 1 => lcsBackNext seq1 seq2 i (lcsBack seq1 seq2 i)

/-- `mdc_sequencias(seq1, seq2)`: longest common subsequence by dynamic
programming — build the table, backtrack from `dp[m][n]`. -/
def mdc_sequencias (seq1 seq2 : String) : String :=
  ⟨lcsBack seq1.data seq2.data seq1.data.length seq2.data.length⟩

/-- `rotacionar_array(array, posicoes)`: empty input is returned unchanged,
else `posicoes %= len(array)` and the result is
`array[-posicoes:] + array[:-posicoes]`. -/
def rotacionar_array (array : List Int) (posicoes : Int) : List Int :=
  if array.isEmpty then
    array
  else
    pySliceFrom array (-(posicoes % (array.length : Int))) ++
      pySliceTo array (-(posicoes % (array.length : Int)))

/-! ## Reference definitions written from the spec -/

/-- The reference Fibonacci recurrence of the spec:
`F(0)=0, F(1)=1, F(n)=F(n-1)+F(n-2)`. -/
def fibRef : Nat → Nat
  | 0 => 0
  | 1 => 1
  | n + 2 => fibRef (n + 1) + fibRef n

/-- Right rotation as the spec words it: rotate by `k mod length` positions,
i.e. the last `k mod length` elements move to the front; empty input is
unchanged. -/
def rotateRightSpec (l : List Int) (k : Int) : List Int :=
  if l.isEmpty then
    l
  else
    l.drop (l.length - (k % (l.length : Int)).toNat) ++
      l.take (l.length - (k % (l.length : Int)).toNat)

/-! ## Claims about rotation, sets, amicable numbers, Fibonacci base case -/

/-- Claim C5: for every list and every integer `k` (negative and
oversized `k` included), `rotacionar_array` equals the right rotation by
`k mod length`, the empty list is returned unchanged, and
`rotacionar_array [1,2,3,4,5] 2 = [4,5,1,2,3]`. -/
theorem claim5_rotacionar_array_correct (l : List Int) (k : Int) :
    rotacionar_array l k = rotateRightSpec l k ∧
    rotacionar_array [] k = [] ∧
    rotacionar_array [1, 2, 3, 4, 5] 2 = [4, 5, 1, 2, 3] := by
  refine ⟨?_, rfl, by decide⟩
  by_cases hl : l.isEmpty
  · simp [rotacionar_array, rotateRightSpec, hl]
  · have hlen : 0 < l.length := by
      cases l
      · simp at hl
      · simp
    have hlen0 : (l.length : Int) ≠ 0 := by exact_mod_cast hlen.ne'
    have h0 : 0 ≤ k % (l.length : Int) := Int.emod_nonneg _ hlen0
    have h1 : k % (l.length : Int) < (l.length : Int) :=
      Int.emod_lt_of_pos _ (by exact_mod_cast hlen)
    simp only [rotacionar_array, rotateRightSpec, hl, if_false, Bool.false_eq_true,
      if_neg, pySliceFrom, pySliceTo]
    by_cases hp : k % (l.length : Int) = 0
    · rw [hp]
      simp
    · have hneg : ¬ (0 ≤ -(k % (l.length : Int))) := by omega
      rw [if_neg hneg]
      have harg : ((l.length : Int) + -(k % (l.length : Int))).toNat =
          l.length - (k % (l.length : Int)).toNat := by omega
      rw [harg]

/-- Claim C8: the `union` and `symmetric_difference` components of
`operacoes_conjuntos` are commutative in the two arguments. -/
theorem claim8_operacoes_conjuntos_comm (A B : Finset Int) :
    (operacoes_conjuntos A B).uniao = (operacoes_conjuntos B A).uniao ∧
    (operacoes_conjuntos A B).diferenca_simetrica =
      (operacoes_conjuntos B A).diferenca_simetrica :=
  ⟨Finset.union_comm A B, symmDiff_comm A B⟩

/-- Claim C9: every perfect number `n ≥ 1` is amicable with itself — the
code imposes no distinctness check. -/
theorem claim9_perfect_amicable_self (n : Int) (h1 : 1 ≤ n)
    (h2 : eh_numero_perfeito n = true) : sao_numeros_amigos n n = true := by
  simp only [eh_numero_perfeito, beq_iff_eq] at h2
  simp only [sao_numeros_amigos, beq_iff_eq, Bool.and_eq_true]
  omega

/-- Witness for C9 at the perfect number 6. -/
theorem claim9_witness :
    (1 : Int) ≤ 6 ∧ sao_numeros_amigos 6 6 = true :=
  ⟨by norm_num, claim9_perfect_amicable_self 6 (by norm_num) (by decide)⟩

/-- Claim C10: on a fresh memo, `fibonacci n` for negative `n` returns `n`
itself, because the base case returns `n` whenever `n ≤ 1`. -/
theorem claim10_fibonacci_negative (n : Int) (h : n < 0) :
    (fibonacci n []).1 = n := by
  rw [fibonacci]
  simp only [List.lookup]
  rw [dif_pos (by omega : n ≤ 1)]

/-- Witness for C10 at `n = -5`. -/
theorem claim10_witness : (fibonacci (-5) []).1 = -5 :=
  claim10_fibonacci_negative (-5) (by norm_num)

/-! ## Claim C4: `top_n_palavras` at non-positive `n` -/

/-- Claim C4 as stated is false: at `n = -1` on the text `"a b"` the
Python slice `[:n]` drops only the last entry, so the result is nonempty. -/
theorem claim4_counterexample : top_n_palavras "a b" (-1) ≠ [] := by
  have h : contar_frequencia "a b" = [(['a'], 1), (['b'], 1)] := by decide
  simp [top_n_palavras, h, List.mergeSort, pySliceTo]

/-- Claim C4 amended: for `n ≤ 0`, `top_n_palavras texto n` is empty iff
`n = 0` or the number of distinct tokens is at most `-n` (the Python slice
`[:n]` with negative `n` keeps all but the last `-n` ranked entries). -/
theorem claim4_top_n_nonpositive (texto : String) (n : Int) (h : n ≤ 0) :
    top_n_palavras texto n = [] ↔
      n = 0 ∨ ((contar_frequencia texto).length : Int) ≤ -n := by
  rcases eq_or_lt_of_le h with h0 | hneg
  · subst h0
    simp [top_n_palavras, pySliceTo]
  · have hn : ¬ (0 ≤ n) := by omega
    simp only [top_n_palavras, pySliceTo, if_neg hn, List.take_eq_nil_iff,
      List.length_mergeSort]
    constructor
    · rintro (hc | hc)
      · right
        omega
      · right
        have := congrArg List.length hc
        simp only [List.length_mergeSort, List.length_nil] at this
        omega
    · rintro (hc | hc)
      · omega
      · left
        omega

/-- Witness for the amended C4 at `texto = "a b"`, `n = -2`. -/
theorem claim4_witness : top_n_palavras "a b" (-2) = [] :=
  (claim4_top_n_nonpositive "a b" (-2) (by norm_num)).mpr (Or.inr (by decide))


theorem string_ne_of_data_ne {s t : String} (h : s.data ≠ t.data) : s ≠ t :=
  fun he => h (congrArg String.data he)

theorem msgs_distinct :
    msgMin8 ≠ msgMaiuscula ∧ msgMin8 ≠ msgMinuscula ∧ msgMin8 ≠ msgNumero ∧
    msgMin8 ≠ msgEspecial ∧ msgMaiuscula ≠ msgMinuscula ∧ msgMaiuscula ≠ msgNumero ∧
    msgMaiuscula ≠ msgEspecial ∧ msgMinuscula ≠ msgNumero ∧ msgMinuscula ≠ msgEspecial ∧
    msgNumero ≠ msgEspecial :=
  ⟨string_ne_of_data_ne (by decide), string_ne_of_data_ne (by decide),
    string_ne_of_data_ne (by decide), string_ne_of_data_ne (by decide),
    string_ne_of_data_ne (by decide), string_ne_of_data_ne (by decide),
    string_ne_of_data_ne (by decide), string_ne_of_data_ne (by decide),
    string_ne_of_data_ne (by decide), string_ne_of_data_ne (by decide)⟩

set_option maxHeartbeats 1000000 in
theorem claim7_validar_senha_forte (senha : String) :
    ((validar_senha_forte senha).1 = true ↔ (validar_senha_forte senha).2 = []) ∧
    List.Sublist (validar_senha_forte senha).2
      [msgMin8, msgMaiuscula, msgMinuscula, msgNumero, msgEspecial] ∧
    (msgMin8 ∈ (validar_senha_forte senha).2 ↔ senha.data.length < 8) ∧
    (msgMaiuscula ∈ (validar_senha_forte senha).2 ↔
      (senha.data.any fun c => decide ('A' ≤ c) && decide (c ≤ 'Z')) = false) ∧
    (msgMinuscula ∈ (validar_senha_forte senha).2 ↔
      (senha.data.any fun c => decide ('a' ≤ c) && decide (c ≤ 'z')) = false) ∧
    (msgNumero ∈ (validar_senha_forte senha).2 ↔
      (senha.data.any fun c => decide ('0' ≤ c) && decide (c ≤ '9')) = false) ∧
    (msgEspecial ∈ (validar_senha_forte senha).2 ↔
      (senha.data.any fun c => caracteresEspeciais.contains c) = false) := by
  obtain ⟨d1, d2, d3, d4, d5, d6, d7, d8, d9, d10⟩ := msgs_distinct
  simp only [validar_senha_forte, beq_iff_eq, List.length_eq_zero]
  split_ifs <;>
    simp_all [List.cons_sublist_cons, List.nil_sublist, not_forall, not_lt,
      Ne.symm d1, Ne.symm d2, Ne.symm d3, Ne.symm d4, Ne.symm d5,
      Ne.symm d6, Ne.symm d7, Ne.symm d8, Ne.symm d9, Ne.symm d10] <;>
    decide


/-! ## Claim C1: `merge_sort` -/

theorem mesclar_perm (xs ys : List Int) : (mesclar xs ys).Perm (xs ++ ys) := by
  induction xs, ys using mesclar.induct with
  | case1 direita => simp [mesclar]
  | case2 x xs => simp [mesclar]
  | case3 x xs y ys hxy ih =>
    rw [mesclar, if_pos hxy]
    exact ih.cons x
  | case4 x xs y ys hxy ih =>
    rw [mesclar, if_neg hxy]
    exact (ih.cons y).trans List.perm_middle.symm

theorem mesclar_sorted (xs ys : List Int) (hx : List.Sorted (· ≤ ·) xs)
    (hy : List.Sorted (· ≤ ·) ys) : List.Sorted (· ≤ ·) (mesclar xs ys) := by
  induction xs, ys using mesclar.induct with
  | case1 direita => simpa [mesclar] using hy
  | case2 x xs => simpa [mesclar] using hx
  | case3 x xs y ys hxy ih =>
    rw [mesclar, if_pos hxy]
    rw [List.sorted_cons] at hx ⊢
    refine ⟨?_, ih hx.2 hy⟩
    intro b hb
    rw [List.sorted_cons] at hy
    rcases List.mem_append.mp ((mesclar_perm xs (y :: ys)).mem_iff.mp hb) with hbl | hbr
    · exact hx.1 b hbl
    · rcases List.mem_cons.mp hbr with rfl | hbys
      · exact hxy
      · exact hxy.trans (hy.1 b hbys)
  | case4 x xs y ys hxy ih =>
    rw [mesclar, if_neg hxy]
    rw [List.sorted_cons] at hy ⊢
    have hyx : y ≤ x := le_of_not_le hxy
    refine ⟨?_, ih hx hy.2⟩
    intro b hb
    rw [List.sorted_cons] at hx
    rcases List.mem_append.mp ((mesclar_perm (x :: xs) ys).mem_iff.mp hb) with hbl | hbr
    · rcases List.mem_cons.mp hbl with rfl | hbxs
      · exact hyx
      · exact hyx.trans (hx.1 b hbxs)
    · exact hy.1 b hbr

/-- Claim C1: `merge_sort` returns a permutation of its input that is
non-decreasing (the embedding is a pure function: the input list is not
mutated). -/
theorem claim1_merge_sort_correct (lista : List Int) :
    (merge_sort lista).Perm lista ∧ List.Sorted (· ≤ ·) (merge_sort lista) := by
  induction lista using merge_sort.induct with
  | case1 lista h =>
    rw [merge_sort, dif_pos h]
    refine ⟨List.Perm.refl lista, ?_⟩
    match lista, h with
    | [], _ => exact List.sorted_nil
    | [a], _ => exact List.sorted_singleton a
  | case2 lista h ih1 ih2 =>
    rw [merge_sort, dif_neg h]
    constructor
    · exact ((mesclar_perm _ _).trans (ih1.1.append ih2.1)).trans
        (by rw [List.take_append_drop])
    · exact mesclar_sorted _ _ ih1.2 ih2.2


/-! ## Claim C2: `busca_binaria` -/

theorem sorted_getD_mono (lista : List Int) (hs : List.Sorted (· ≤ ·) lista)
    {i j : Nat} (hij : i ≤ j) (hj : j < lista.length) :
    lista.getD i 0 ≤ lista.getD j 0 := by
  have hi : i < lista.length := lt_of_le_of_lt hij hj
  rw [List.getD_eq_getElem _ _ hi, List.getD_eq_getElem _ _ hj]
  rw [← List.get_eq_getElem lista ⟨i, hi⟩, ← List.get_eq_getElem lista ⟨j, hj⟩]
  exact hs.rel_get_of_le hij

theorem buscaLoop_correct (lista : List Int) (alvo : Int)
    (hs : List.Sorted (· ≤ ·) lista) (esquerda direita : Int) :
    0 ≤ esquerda → direita < (lista.length : Int) →
    (∀ k : Nat, k < lista.length → lista.getD k 0 = alvo →
        esquerda ≤ (k : Int) ∧ (k : Int) ≤ direita) →
    (buscaLoop lista alvo esquerda direita = -1 →
        ∀ k : Nat, k < lista.length → lista.getD k 0 ≠ alvo) ∧
    (buscaLoop lista alvo esquerda direita ≠ -1 →
        ∃ m : Nat, m < lista.length ∧
          buscaLoop lista alvo esquerda direita = (m : Int) ∧
          lista.getD m 0 = alvo) := by
  induction esquerda, direita using buscaLoop.induct lista alvo with
  | case1 esquerda direita hle hfound =>
    intro h0 h1 _
    rw [buscaLoop, dif_pos hle, if_pos hfound]
    have hmeio : esquerda ≤ (esquerda + direita) / 2 ∧
        (esquerda + direita) / 2 ≤ direita := by omega
    constructor
    · intro habs
      omega
    · intro _
      refine ⟨((esquerda + direita) / 2).toNat, by omega, by omega, hfound⟩
  | case2 esquerda direita hle hne hlt ih =>
    intro h0 h1 hinv
    have hmeio : esquerda ≤ (esquerda + direita) / 2 ∧
        (esquerda + direita) / 2 ≤ direita := by omega
    rw [buscaLoop, dif_pos hle, if_neg hne, if_pos hlt]
    refine ih (by omega) h1 ?_
    intro k hk hak
    rcases hinv k hk hak with ⟨hk1, hk2⟩
    refine ⟨?_, hk2⟩
    by_contra hcon
    have hkm : k ≤ ((esquerda + direita) / 2).toNat := by omega
    have hmlen : ((esquerda + direita) / 2).toNat < lista.length := by omega
    have := sorted_getD_mono lista hs hkm hmlen
    omega
  | case3 esquerda direita hle hne hge ih =>
    intro h0 h1 hinv
    have hmeio : esquerda ≤ (esquerda + direita) / 2 ∧
        (esquerda + direita) / 2 ≤ direita := by omega
    rw [buscaLoop, dif_pos hle, if_neg hne, if_neg hge]
    refine ih h0 (by omega) ?_
    intro k hk hak
    rcases hinv k hk hak with ⟨hk1, hk2⟩
    refine ⟨hk1, ?_⟩
    by_contra hcon
    have hkm : ((esquerda + direita) / 2).toNat ≤ k := by omega
    have := sorted_getD_mono lista hs hkm hk
    omega
  | case4 esquerda direita hle =>
    intro h0 h1 hinv
    rw [buscaLoop, dif_neg hle]
    constructor
    · intro _ k hk hak
      rcases hinv k hk hak with ⟨hk1, hk2⟩
      omega
    · intro habs
      exact absurd rfl habs

/-- Claim C2: on a list sorted in ascending order, `busca_binaria` returns
an index holding the target when the target occurs, and `-1` (in
particular on the empty list) when it does not. -/
theorem claim2_busca_binaria_correct (lista : List Int) (alvo : Int)
    (hs : List.Sorted (· ≤ ·) lista) :
    (alvo ∈ lista → ∃ m : Nat, m < lista.length ∧
        busca_binaria lista alvo = (m : Int) ∧ lista.getD m 0 = alvo) ∧
    (alvo ∉ lista → busca_binaria lista alvo = -1) := by
  have h := buscaLoop_correct lista alvo hs 0 ((lista.length : Int) - 1)
    (le_refl 0) (by omega) (fun k hk _ => by omega)
  constructor
  · intro hmem
    rcases List.mem_iff_getElem.mp hmem with ⟨k, hk, hak⟩
    have hak2 : lista.getD k 0 = alvo := by
      rw [List.getD_eq_getElem _ _ hk]
      exact hak
    by_cases hres : busca_binaria lista alvo = -1
    · exact absurd hak2 (h.1 hres k hk)
    · exact h.2 hres
  · intro hnot
    by_contra hres
    rcases h.2 hres with ⟨m, hm, _, ham⟩
    refine hnot ?_
    rw [List.getD_eq_getElem _ _ hm] at ham
    rw [← ham]
    exact List.getElem_mem hm

/-- Witness for C2: searching 5 in the sorted list `[1, 3, 5, 7]`. -/
theorem claim2_witness :
    ∃ m : Nat, m < ([1, 3, 5, 7] : List Int).length ∧
      busca_binaria [1, 3, 5, 7] 5 = (m : Int) ∧
      ([1, 3, 5, 7] : List Int).getD m 0 = 5 :=
  (claim2_busca_binaria_correct [1, 3, 5, 7] 5 (by decide)).1 (by decide)


/-! ## Claim C6: `fibonacci` with a fresh memo -/

theorem mem_of_lookup_some {memo : List (Int × Int)} {n v : Int}
    (h : memo.lookup n = some v) : (n, v) ∈ memo := by
  induction memo with
  | nil => simp [List.lookup] at h
  | cons p rest ih =>
    rcases p with ⟨k, b⟩
    by_cases hk : n = k
    · subst hk
      simp [List.lookup] at h
      subst h
      exact List.mem_cons_self _ _
    · have hbeq : (n == k) = false := beq_eq_false_iff_ne.mpr hk
      simp [List.lookup, hbeq] at h
      exact List.mem_cons_of_mem _ (ih h)

/-- Invariant of the memo dictionary: every stored entry is a correct
Fibonacci value at a non-negative index. -/
def memoOk (memo : List (Int × Int)) : Prop :=
  ∀ p ∈ memo, 0 ≤ p.1 ∧ p.2 = (fibRef p.1.toNat : Int)

theorem fibonacci_memo_correct (n : Int) (memo : List (Int × Int)) :
    memoOk memo → 0 ≤ n →
    (fibonacci n memo).1 = (fibRef n.toNat : Int) ∧
    memoOk (fibonacci n memo).2 := by
  induction n, memo using fibonacci.induct with
  | case1 n memo v hlook =>
    intro hm _
    rw [fibonacci]
    simp only [hlook]
    exact ⟨(hm (n, v) (mem_of_lookup_some hlook)).2, hm⟩
  | case2 n memo hlook hle =>
    intro hm hn
    rw [fibonacci]
    simp only [hlook]
    rw [dif_pos hle]
    refine ⟨?_, hm⟩
    have : n = 0 ∨ n = 1 := by omega
    rcases this with rfl | rfl
    · simp [fibRef]
    · simp [fibRef]
  | case3 n memo hlook hgt r1 ih1 ih2 =>
    intro hm hn
    obtain ⟨h1val, h1memo⟩ := ih1 hm (by omega)
    obtain ⟨h2val, h2memo⟩ := ih2 h1memo (by omega)
    rw [fibonacci]
    simp only [hlook]
    rw [dif_neg hgt]
    have hsum : (fibonacci (n - 1) memo).1 +
        (fibonacci (n - 2) (fibonacci (n - 1) memo).2).1 =
        (fibRef n.toNat : Int) := by
      rw [h1val, h2val]
      have e1 : (n - 1).toNat = (n - 2).toNat + 1 := by omega
      have e2 : n.toNat = (n - 2).toNat + 2 := by omega
      rw [e1, e2]
      have : fibRef ((n - 2).toNat + 2) =
          fibRef ((n - 2).toNat + 1) + fibRef ((n - 2).toNat) := rfl
      rw [this]
      push_cast
      ring
    refine ⟨hsum, ?_⟩
    intro p hp
    rcases List.mem_cons.mp hp with rfl | hp2
    · exact ⟨by omega, hsum.symm ▸ rfl⟩
    · exact h2memo p hp2

/-- Claim C6: called with a fresh empty memo, `fibonacci n` for `n ≥ 0`
equals the reference recurrence `F(0)=0, F(1)=1, F(n)=F(n-1)+F(n-2)`. -/
theorem claim6_fibonacci_fresh_memo (n : Int) (h : 0 ≤ n) :
    (fibonacci n []).1 = (fibRef n.toNat : Int) :=
  (fibonacci_memo_correct n [] (by intro p hp; simp at hp) h).1

/-- Witness for C6 at `n = 10`: the reference value is 55. -/
theorem claim6_witness :
    (fibonacci 10 []).1 = (fibRef (10 : Int).toNat : Int) ∧ fibRef 10 = 55 :=
  ⟨claim6_fibonacci_fresh_memo 10 (by norm_num), by decide⟩


/-! ## Claim C3: `mdc_sequencias` (longest common subsequence) -/

theorem dpLCS_zero_left (s1 s2 : List Char) (j : Nat) : dpLCS s1 s2 0 j = 0 := rfl

theorem dpLCS_zero_right (s1 s2 : List Char) (i : Nat) : dpLCS s1 s2 i 0 = 0 := by
  cases i <;> rfl

theorem dpLCS_succ_succ (s1 s2 : List Char) (i j : Nat) :
    dpLCS s1 s2 (i + 1) (j + 1) =
      if s1.getD i ' ' = s2.getD j ' ' then dpLCS s1 s2 i j + 1
      else max (dpLCS s1 s2 i (j + 1)) (dpLCS s1 s2 (i + 1) j) := rfl

theorem lcsBack_zero_left (s1 s2 : List Char) (j : Nat) :
    lcsBack s1 s2 0 j = [] := rfl

theorem lcsBack_zero_right (s1 s2 : List Char) (i : Nat) :
    lcsBack s1 s2 i 0 = [] := by
  cases i <;> rfl

theorem lcsBack_succ_succ (s1 s2 : List Char) (i j : Nat) :
    lcsBack s1 s2 (i + 1) (j + 1) =
      if s1.getD i ' ' = s2.getD j ' ' then
        lcsBack s1 s2 i j ++ [s1.getD i ' ']
      else if dpLCS s1 s2 i (j + 1) > dpLCS s1 s2 (i + 1) j then
        lcsBack s1 s2 i (j + 1)
      else
        lcsBack s1 s2 (i + 1) j := rfl

theorem dpLCS_mono (s1 s2 : List Char) : ∀ N i j, i + j ≤ N →
    (dpLCS s1 s2 i j ≤ dpLCS s1 s2 (i + 1) j ∧
     dpLCS s1 s2 i j ≤ dpLCS s1 s2 i (j + 1) ∧
     dpLCS s1 s2 (i + 1) j ≤ dpLCS s1 s2 i j + 1 ∧
     dpLCS s1 s2 i (j + 1) ≤ dpLCS s1 s2 i j + 1) := by
  intro N
  induction N with
  | zero =>
    intro i j hij
    have hi : i = 0 := by omega
    have hj : j = 0 := by omega
    subst hi hj
    refine ⟨?_, ?_, ?_, ?_⟩ <;>
      simp [dpLCS_zero_left, dpLCS_zero_right]
  | succ N ihN =>
    intro i j hij
    refine ⟨?_, ?_, ?_, ?_⟩
    · -- dp i j ≤ dp (i+1) j
      cases j with
      | zero => simp [dpLCS_zero_right]
      | succ j' =>
        rw [dpLCS_succ_succ]
        by_cases hc : s1.getD i ' ' = s2.getD j' ' '
        · rw [if_pos hc]
          exact (ihN i j' (by omega)).2.2.2
        · rw [if_neg hc]
          exact le_max_left _ _
    · -- dp i j ≤ dp i (j+1)
      cases i with
      | zero => simp [dpLCS_zero_left]
      | succ i' =>
        rw [dpLCS_succ_succ]
        by_cases hc : s1.getD i' ' ' = s2.getD j ' '
        · rw [if_pos hc]
          exact (ihN i' j (by omega)).2.2.1
        · rw [if_neg hc]
          exact le_max_right _ _
    · -- dp (i+1) j ≤ dp i j + 1
      cases j with
      | zero => simp [dpLCS_zero_right]
      | succ j' =>
        rw [dpLCS_succ_succ]
        by_cases hc : s1.getD i ' ' = s2.getD j' ' '
        · rw [if_pos hc]
          exact Nat.add_le_add_right (ihN i j' (by omega)).2.1 1
        · rw [if_neg hc]
          refine max_le (Nat.le_succ _) ?_
          exact ((ihN i j' (by omega)).2.2.1).trans
            (Nat.add_le_add_right (ihN i j' (by omega)).2.1 1)
    · -- dp i (j+1) ≤ dp i j + 1
      cases i with
      | zero => simp [dpLCS_zero_left]
      | succ i' =>
        rw [dpLCS_succ_succ]
        by_cases hc : s1.getD i' ' ' = s2.getD j ' '
        · rw [if_pos hc]
          exact Nat.add_le_add_right (ihN i' j (by omega)).1 1
        · rw [if_neg hc]
          refine max_le ?_ (Nat.le_succ _)
          exact ((ihN i' j (by omega)).2.2.2).trans
            (Nat.add_le_add_right (ihN i' j (by omega)).1 1)

theorem dpLCS_mono_left (s1 s2 : List Char) (i j : Nat) :
    dpLCS s1 s2 i j ≤ dpLCS s1 s2 (i + 1) j :=
  (dpLCS_mono s1 s2 (i + j) i j (le_refl _)).1

theorem dpLCS_mono_right (s1 s2 : List Char) (i j : Nat) :
    dpLCS s1 s2 i j ≤ dpLCS s1 s2 i (j + 1) :=
  (dpLCS_mono s1 s2 (i + j) i j (le_refl _)).2.1


theorem lcsBack_length (s1 s2 : List Char) : ∀ N i j, i + j ≤ N →
    (lcsBack s1 s2 i j).length = dpLCS s1 s2 i j := by
  intro N
  induction N with
  | zero =>
    intro i j hij
    have hi : i = 0 := by omega
    have hj : j = 0 := by omega
    subst hi hj
    rfl
  | succ N ihN =>
    intro i j hij
    cases i with
    | zero => simp [lcsBack_zero_left, dpLCS_zero_left]
    | succ i' =>
      cases j with
      | zero => simp [lcsBack_zero_right, dpLCS_zero_right]
      | succ j' =>
        rw [lcsBack_succ_succ, dpLCS_succ_succ]
        by_cases hc : s1.getD i' ' ' = s2.getD j' ' '
        · rw [if_pos hc, if_pos hc]
          simp only [List.length_append, List.length_singleton]
          rw [ihN i' j' (by omega)]
        · rw [if_neg hc, if_neg hc]
          by_cases hgt : dpLCS s1 s2 i' (j' + 1) > dpLCS s1 s2 (i' + 1) j'
          · rw [if_pos hgt, ihN i' (j' + 1) (by omega)]
            exact (max_eq_left (le_of_lt hgt)).symm
          · rw [if_neg hgt, ihN (i' + 1) j' (by omega)]
            exact (max_eq_right (le_of_not_lt hgt)).symm

theorem take_succ_concat {α : Type} (l : List α) (i : Nat) (d : α)
    (hi : i < l.length) : l.take (i + 1) = l.take i ++ [l.getD i d] := by
  rw [List.take_succ, List.getElem?_eq_getElem hi, List.getD_eq_getElem _ _ hi]
  rfl

theorem take_sublist_take_succ {α : Type} (l : List α) (i : Nat) :
    (l.take i).Sublist (l.take (i + 1)) := by
  have h := List.take_sublist i (l.take (i + 1))
  rw [List.take_take] at h
  have : i ⊓ (i + 1) = i := inf_eq_left.mpr (Nat.le_succ i)
  rw [this] at h
  exact h

theorem lcsBack_sublist (s1 s2 : List Char) : ∀ N i j, i + j ≤ N →
    i ≤ s1.length → j ≤ s2.length →
    (lcsBack s1 s2 i j).Sublist (s1.take i) ∧
    (lcsBack s1 s2 i j).Sublist (s2.take j) := by
  intro N
  induction N with
  | zero =>
    intro i j hij _ _
    have hi : i = 0 := by omega
    have hj : j = 0 := by omega
    subst hi hj
    exact ⟨List.nil_sublist _, List.nil_sublist _⟩
  | succ N ihN =>
    intro i j hij hi hj
    cases i with
    | zero =>
      rw [lcsBack_zero_left]
      exact ⟨List.nil_sublist _, List.nil_sublist _⟩
    | succ i' =>
      cases j with
      | zero =>
        rw [lcsBack_zero_right]
        exact ⟨List.nil_sublist _, List.nil_sublist _⟩
      | succ j' =>
        have hi' : i' < s1.length := by omega
        have hj' : j' < s2.length := by omega
        rw [lcsBack_succ_succ]
        by_cases hc : s1.getD i' ' ' = s2.getD j' ' '
        · rw [if_pos hc]
          obtain ⟨ihl, ihr⟩ := ihN i' j' (by omega) (by omega) (by omega)
          constructor
          · rw [take_succ_concat s1 i' ' ' hi']
            exact ihl.append (List.Sublist.refl _)
          · rw [take_succ_concat s2 j' ' ' hj', hc]
            exact ihr.append (List.Sublist.refl _)
        · rw [if_neg hc]
          by_cases hgt : dpLCS s1 s2 i' (j' + 1) > dpLCS s1 s2 (i' + 1) j'
          · rw [if_pos hgt]
            obtain ⟨ihl, ihr⟩ := ihN i' (j' + 1) (by omega) (by omega) (by omega)
            exact ⟨ihl.trans (take_sublist_take_succ s1 i'), ihr⟩
          · rw [if_neg hgt]
            obtain ⟨ihl, ihr⟩ := ihN (i' + 1) j' (by omega) (by omega) (by omega)
            exact ⟨ihl, ihr.trans (take_sublist_take_succ s2 j')⟩


theorem dpLCS_bound (s1 s2 : List Char) : ∀ N i j (l : List Char), i + j ≤ N →
    i ≤ s1.length → j ≤ s2.length →
    l.Sublist (s1.take i) → l.Sublist (s2.take j) →
    l.length ≤ dpLCS s1 s2 i j := by
  intro N
  induction N with
  | zero =>
    intro i j l hij _ _ h1 _
    have hi : i = 0 := by omega
    subst hi
    simp only [List.take_zero, List.sublist_nil] at h1
    subst h1
    simp
  | succ N ihN =>
    intro i j l hij hi hj h1 h2
    cases i with
    | zero =>
      simp only [List.take_zero, List.sublist_nil] at h1
      subst h1
      simp
    | succ i' =>
      cases j with
      | zero =>
        simp only [List.take_zero, List.sublist_nil] at h2
        subst h2
        simp
      | succ j' =>
        have hi' : i' < s1.length := by omega
        have hj' : j' < s2.length := by omega
        rw [take_succ_concat s1 i' ' ' hi'] at h1
        rcases List.sublist_append_iff.mp h1 with ⟨l1, l2, rfl, hl1, hl2⟩
        rcases List.sublist_singleton.mp hl2 with rfl | rfl
        · -- the subsequence does not use s1[i']
          rw [List.append_nil]
          rw [List.append_nil] at h2
          have hb := ihN i' (j' + 1) l1 (by omega) (by omega) (by omega) hl1 h2
          exact hb.trans (dpLCS_mono_left s1 s2 i' (j' + 1))
        · -- the subsequence ends in s1[i']
          rw [take_succ_concat s2 j' ' ' hj'] at h2
          rcases List.sublist_append_iff.mp h2 with ⟨m1, m2, hm, hm1, hm2⟩
          rcases List.sublist_singleton.mp hm2 with rfl | rfl
          · -- but not s2[j']: it lives in the first j' chars of s2
            rw [List.append_nil] at hm
            rw [← hm] at hm1
            rw [← take_succ_concat s1 i' ' ' hi'] at h1
            have hb := ihN (i' + 1) j' (l1 ++ [s1.getD i' ' '])
              (by omega) (by omega) (by omega) h1 hm1
            exact hb.trans (dpLCS_mono_right s1 s2 (i' + 1) j')
          · -- it ends in s2[j'] as well: matched characters are equal
            obtain ⟨hpre, hone⟩ := List.append_inj' hm (by simp)
            have hchar : s1.getD i' ' ' = s2.getD j' ' ' := by
              injection hone
            have hb := ihN i' j' l1 (by omega) (by omega) (by omega) hl1
              (hpre ▸ hm1)
            rw [dpLCS_succ_succ, if_pos hchar]
            simp only [List.length_append, List.length_singleton]
            omega


/-- Claim C3: `mdc_sequencias` returns a common subsequence of both input
strings of maximal length among all common subsequences; on `"AGGTAB"` and
`"GXTXAYB"` the result has length 4. -/
theorem claim3_mdc_sequencias_lcs (seq1 seq2 : String) (l : List Char)
    (h1 : l.Sublist seq1.data) (h2 : l.Sublist seq2.data) :
    (mdc_sequencias seq1 seq2).data.Sublist seq1.data ∧
    (mdc_sequencias seq1 seq2).data.Sublist seq2.data ∧
    l.length ≤ (mdc_sequencias seq1 seq2).data.length ∧
    (mdc_sequencias "AGGTAB" "GXTXAYB").data.length = 4 := by
  have hdata : (mdc_sequencias seq1 seq2).data =
      lcsBack seq1.data seq2.data seq1.data.length seq2.data.length := rfl
  obtain ⟨hs1, hs2⟩ := lcsBack_sublist seq1.data seq2.data
    (seq1.data.length + seq2.data.length) seq1.data.length seq2.data.length
    (le_refl _) (le_refl _) (le_refl _)
  rw [List.take_length] at hs1
  rw [List.take_length] at hs2
  have hlen := lcsBack_length seq1.data seq2.data
    (seq1.data.length + seq2.data.length) seq1.data.length seq2.data.length
    (le_refl _)
  have hbound := dpLCS_bound seq1.data seq2.data
    (seq1.data.length + seq2.data.length) seq1.data.length seq2.data.length l
    (le_refl _) (le_refl _) (le_refl _)
    (by rw [List.take_length]; exact h1) (by rw [List.take_length]; exact h2)
  refine ⟨hdata ▸ hs1, hdata ▸ hs2, ?_, by decide⟩
  rw [hdata, hlen]
  exact hbound

/-- Witness for C3: `"GTAB"` is a common subsequence of `"AGGTAB"` and
`"GXTXAYB"`, so the returned subsequence has length at least 4 (and the
theorem also gives that it is exactly 4). -/
theorem claim3_witness :
    (mdc_sequencias "AGGTAB" "GXTXAYB").data.Sublist "AGGTAB".data ∧
    (mdc_sequencias "AGGTAB" "GXTXAYB").data.Sublist "GXTXAYB".data ∧
    (['G', 'T', 'A', 'B'] : List Char).length ≤
      (mdc_sequencias "AGGTAB" "GXTXAYB").data.length ∧
    (mdc_sequencias "AGGTAB" "GXTXAYB").data.length = 4 :=
  claim3_mdc_sequencias_lcs "AGGTAB" "GXTXAYB" ['G', 'T', 'A', 'B']
    (by decide) (by decide)

end PyDev
